import Mathlib

/-!
# AnonVerse — verification of the specification against the source

This file embeds, in Lean 4, the two parts of the AnonVerse repository that
the claims concern:

* the client-side stream cipher (`keyBytes`, `encodeMessage`, `decodeMessage`
  from `src/utils/crypto.ts`), modelled over byte lists (a JS string is
  identified with its UTF-8 byte sequence, which is exactly what
  `TextEncoder`/`TextDecoder` produce/consume), and

* the `AnonVerse` Solidity contract (group creation, membership, message
  posting, and the FHE ACL side effects), modelled as a state machine with
  explicit `msg.sender`, `block.timestamp` and randomness parameters, where
  a reverting `require` is an `Except.error` and a transaction that errors
  leaves the state unchanged.

Theorems named `C1_…` … `C10_…` settle the frozen claims.
-/

namespace AnonVerse

/-! ## The client cipher (`src/utils/crypto.ts`) -/

/-- `keyBytes(key)`: the 4-byte big-endian encoding of the key, as written by
`new DataView(keyBuffer).setUint32(0, key)` (which first reduces the number
to 32 bits). -/
def keyBytes (key : Nat) : List Nat :=
  [key % 2 ^ 32 / 2 ^ 24, key % 2 ^ 32 / 2 ^ 16 % 2 ^ 8,
   key % 2 ^ 32 / 2 ^ 8 % 2 ^ 8, key % 2 ^ 32 % 2 ^ 8]

/-- `bytes.map((byte, idx) => byte ^ bytesKey[idx % bytesKey.length])`,
the XOR of a byte sequence with the key stream, starting at index `i`. -/
def xorCycle (bytesKey : List Nat) : Nat → List Nat → List Nat
  | _, [] => []
  | i, b :: bs => (b ^^^ bytesKey.getD (i % bytesKey.length) 0) :: xorCycle bytesKey (i + 1) bs

/-- `val.toString(16).padStart(2, '0')`: lowercase hex digits of `val`,
left-padded with `'0'` to at least two characters. -/
def toHexPadded (val : Nat) : List Char :=
  let ds := Nat.toDigits 16 val
  if ds.length < 2 then List.replicate (2 - ds.length) '0' ++ ds else ds

/-- `encodeMessage(message, key)`: XOR the message bytes with the cyclic key
stream and render the result as a hex string. -/
def encodeMessage (message : List Nat) (key : Nat) : String :=
  String.mk (((xorCycle (keyBytes key) 0 message).map toHexPadded).flatten)

/-- The numeric value of a hexadecimal digit character, as `parseInt(_, 16)`
assigns it (the claims only exercise valid hex input, where `parseInt`
returns exactly this positional value). -/
def hexDigitVal (c : Char) : Nat :=
  if '0' ≤ c ∧ c ≤ '9' then c.toNat - '0'.toNat
  else if 'a' ≤ c ∧ c ≤ 'f' then c.toNat - 'a'.toNat + 10
  else if 'A' ≤ c ∧ c ≤ 'F' then c.toNat - 'A'.toNat + 10
  else 0

/-- `cipherHex.match(/.{1,2}/g)`: split the character list into chunks of two
(a trailing lone character forms a chunk of one). -/
def hexChunks : List Char → List (List Char)
  | [] => []
  | [c] => [[c]]
  | c₁ :: c₂ :: rest => [c₁, c₂] :: hexChunks rest

/-- `parseInt(pair, 16)` on a chunk of valid hex digits. -/
def parseHexChunk (cs : List Char) : Nat :=
  cs.foldl (fun acc c => 16 * acc + hexDigitVal c) 0

/-- `decodeMessage(cipherHex, key)`: the empty string decodes to the empty
message; otherwise parse the hex pairs back to bytes and XOR with the same
cyclic key stream. -/
def decodeMessage (cipherHex : String) (key : Nat) : List Nat :=
  if cipherHex = "" then []
  else xorCycle (keyBytes key) 0 ((hexChunks cipherHex.data).map parseHexChunk)

/-! ## The `AnonVerse` contract (`contracts/AnonVerse.sol`)

The contract storage and its operations.  `msg.sender`, `block.timestamp`
and the output of `FHE.randEuint32()` are explicit parameters; a reverting
`require` is an `Except.error` carrying the revert reason; a transaction
that errors leaves the state unchanged (EVM rollback, see `step`). -/

/-- Ethereum addresses (identities) are modelled as natural numbers. -/
abbrev Address := Nat

/-- `struct GroupMetadata`.  The `euint32 secret` ciphertext handle is
modelled by the 32-bit plaintext value it encrypts: the contract never
branches on it, and each group's handle is fresh, so the FHE access-control
list can be indexed by the group id (see `State.secretAcl`). -/
structure GroupMetadata where
  name : String
  creator : Address
  secret : Nat
  createdAt : Nat
  memberCount : Nat
  messageCount : Nat
  deriving Repr, DecidableEq, Inhabited

/-- `struct Message`. -/
structure Message where
  sender : Address
  cipherText : String
  timestamp : Nat
  deriving Repr, DecidableEq, Inhabited

/-- The contract storage, together with the access-control lists that
`FHE.allow` / `FHE.allowThis` maintain for each group's secret.  Solidity
mappings (which default to `false` / empty) are total functions. -/
structure State where
  groups : List GroupMetadata
  groupMembers : Nat → Address → Bool
  memberLists : Nat → List Address
  groupMessages : Nat → List Message
  secretAcl : Nat → Address → Bool
  secretAclThis : Nat → Bool

/-- The revert reasons of the contract's `require` statements, by the
spec's error taxonomy: `invalidGroup` ("Invalid group") is `NotFound`,
`groupNameRequired`/`messageRequired` are `InvalidArgument`,
`alreadyJoined` is `AlreadyMember`, `joinFirst` ("Join first") is
`Forbidden`, `invalidMessageIndex` ("Invalid message index") is
`IndexOutOfRange`. -/
inductive Err
  | invalidGroup
  | groupNameRequired
  | alreadyJoined
  | joinFirst
  | messageRequired
  | invalidMessageIndex
  deriving Repr, DecidableEq

/-- The storage of a freshly deployed contract: no groups, all mappings at
their default values. -/
def initState : State where
  groups := []
  groupMembers := fun _ _ => false
  memberLists := fun _ => []
  groupMessages := fun _ => []
  secretAcl := fun _ _ => false
  secretAclThis := fun _ => false

/-- The storage produced by the body of `createGroup(name)`: push the group
`{name, creator: sender, secret: FHE.rem(rand, 1_000_000), createdAt:
timestamp, memberCount: 1, messageCount: 0}` at index `groups.length`,
record the caller as first member (`groupMembers` and `memberLists`), and
grant ACL access to the caller (`FHE.allow(secret, msg.sender)`) and to the
contract itself (`FHE.allowThis(secret)`). -/
def createdState (s : State) (sender : Address) (timestamp rand : Nat) (name : String) :
    State :=
  let groupId := s.groups.length
  { groups := s.groups ++ [⟨name, sender, rand % 2 ^ 32 % 1000000, timestamp, 1, 0⟩]
    groupMembers := fun g a =>
      if g = groupId ∧ a = sender then true else s.groupMembers g a
    memberLists := fun g =>
      if g = groupId then s.memberLists g ++ [sender] else s.memberLists g
    groupMessages := s.groupMessages
    secretAcl := fun g a =>
      if g = groupId ∧ a = sender then true else s.secretAcl g a
    secretAclThis := fun g => if g = groupId then true else s.secretAclThis g }

/-- `createGroup(string name)`: requires a non-empty name, mints the secret
`FHE.rem(FHE.randEuint32(), 1_000_000)` (with `rand` the output of the FHE
randomness primitive, a 32-bit value), assigns `groupId = groups.length`,
and commits `createdState`.  Returns `(groupId, secret)`. -/
def createGroup (s : State) (sender : Address) (timestamp rand : Nat) (name : String) :
    Except Err (State × Nat × Nat) :=
  if name = "" then .error .groupNameRequired
  else .ok (createdState s sender timestamp rand name,
            s.groups.length, rand % 2 ^ 32 % 1000000)

/-- The storage produced by the body of `joinGroup(groupId)` once both
`require`s passed: record membership, append the caller to the member list,
increment `memberCount`, and grant the caller ACL access
(`FHE.allow(groups[groupId].secret, msg.sender)`). -/
def joinedState (s : State) (sender : Address) (groupId : Nat) : State :=
  let g := s.groups[groupId]!
  { s with
    groupMembers := fun i a =>
      if i = groupId ∧ a = sender then true else s.groupMembers i a
    memberLists := fun i =>
      if i = groupId then s.memberLists i ++ [sender] else s.memberLists i
    groups := s.groups.set groupId { g with memberCount := g.memberCount + 1 }
    secretAcl := fun i a =>
      if i = groupId ∧ a = sender then true else s.secretAcl i a }

/-- `joinGroup(uint256 groupId)`: the `validGroup` modifier requires
`groupId < groups.length`; then `require(!groupMembers[groupId][msg.sender],
"Already joined")`; on success commits `joinedState`. -/
def joinGroup (s : State) (sender : Address) (groupId : Nat) : Except Err State :=
  if groupId < s.groups.length then
    if s.groupMembers groupId sender then .error .alreadyJoined
    else .ok (joinedState s sender groupId)
  else .error .invalidGroup

/-- The storage produced by the body of `postMessage(groupId, cipherText)`
once all three `require`s passed: append the message `{sender, cipherText,
timestamp}` and increment `messageCount`. -/
def postedState (s : State) (sender : Address) (timestamp groupId : Nat)
    (cipherText : String) : State :=
  let g := s.groups[groupId]!
  { s with
    groupMessages := fun i =>
      if i = groupId then s.groupMessages i ++ [⟨sender, cipherText, timestamp⟩]
      else s.groupMessages i
    groups := s.groups.set groupId { g with messageCount := g.messageCount + 1 } }

/-- `postMessage(uint256 groupId, string cipherText)`: the `validGroup`
modifier first, then `require(groupMembers[groupId][msg.sender], "Join
first")`, then `require(bytes(cipherText).length > 0, "Message required")`;
on success commits `postedState`. -/
def postMessage (s : State) (sender : Address) (timestamp groupId : Nat)
    (cipherText : String) : Except Err State :=
  if groupId < s.groups.length then
    if s.groupMembers groupId sender then
      if cipherText = "" then .error .messageRequired
      else .ok (postedState s sender timestamp groupId cipherText)
    else .error .joinFirst
  else .error .invalidGroup

/-- `getGroup(uint256 groupId)` (view). -/
def getGroup (s : State) (groupId : Nat) :
    Except Err (String × Address × Nat × Nat × Nat × Nat) :=
  if groupId < s.groups.length then
    let g := s.groups[groupId]!
    .ok (g.name, g.creator, g.createdAt, g.memberCount, g.messageCount, g.secret)
  else .error .invalidGroup

/-- `getGroupCount()` (view). -/
def getGroupCount (s : State) : Nat := s.groups.length

/-- `getGroupSecret(uint256 groupId)` (view). -/
def getGroupSecret (s : State) (groupId : Nat) : Except Err Nat :=
  if groupId < s.groups.length then .ok s.groups[groupId]!.secret
  else .error .invalidGroup

/-- `listMembers(uint256 groupId)` (view). -/
def listMembers (s : State) (groupId : Nat) : Except Err (List Address) :=
  if groupId < s.groups.length then .ok (s.memberLists groupId)
  else .error .invalidGroup

/-- `isMember(uint256 groupId, address account)` (view). -/
def isMember (s : State) (groupId : Nat) (account : Address) : Except Err Bool :=
  if groupId < s.groups.length then .ok (s.groupMembers groupId account)
  else .error .invalidGroup

/-- `getMessageCount(uint256 groupId)` (view). -/
def getMessageCount (s : State) (groupId : Nat) : Except Err Nat :=
  if groupId < s.groups.length then .ok (s.groupMessages groupId).length
  else .error .invalidGroup

/-- `getMessage(uint256 groupId, uint256 index)` (view): requires a valid
group, then `require(index < groupMessages[groupId].length, "Invalid
message index")`. -/
def getMessage (s : State) (groupId index : Nat) : Except Err Message :=
  if groupId < s.groups.length then
    if index < (s.groupMessages groupId).length then
      .ok (s.groupMessages groupId)[index]!
    else .error .invalidMessageIndex
  else .error .invalidGroup

/-- A state-mutating transaction, with its environment: the caller, the
block timestamp, and (for `createGroup`) the FHE randomness. -/
inductive Tx
  | create (sender : Address) (timestamp rand : Nat) (name : String)
  | join (sender : Address) (groupId : Nat)
  | post (sender : Address) (timestamp : Nat) (groupId : Nat) (cipherText : String)

/-- Commit the outcome of a transaction: a revert leaves the pre-state. -/
def commit (s : State) : Except Err State → State
  | .ok s' => s'
  | .error _ => s

/-- Execute one transaction against the state (EVM semantics: a reverted
transaction has no effect). -/
def step (s : State) : Tx → State
  | .create sender t r name => commit s ((createGroup s sender t r name).map Prod.fst)
  | .join sender gid => commit s (joinGroup s sender gid)
  | .post sender t gid c => commit s (postMessage s sender t gid c)

/-- Execute a sequence of transactions in ledger order. -/
def execTrace (s : State) (txs : List Tx) : State := txs.foldl step s

/-- Run a sequence of `createGroup` calls, recording for each call the
assigned group id (`none` when the call reverts). -/
def runCreates (s : State) : List (Address × Nat × Nat × String) → State × List (Option Nat)
  | [] => (s, [])
  | (sender, t, r, name) :: rest =>
    match createGroup s sender t r name with
    | .ok (s', gid, _) =>
      let res := runCreates s' rest
      (res.1, some gid :: res.2)
    | .error _ =>
      let res := runCreates s rest
      (res.1, none :: res.2)

/-- The read (Solidity `view`) entry points of the contract. -/
inductive ReadOp
  | groupCount
  | group (groupId : Nat)
  | groupSecret (groupId : Nat)
  | members (groupId : Nat)
  | memberQuery (groupId : Nat) (account : Address)
  | msgCount (groupId : Nat)
  | msgAt (groupId index : Nat)

/-- The value returned by a read call. -/
inductive ReadResult
  | count (n : Nat)
  | group (g : String × Address × Nat × Nat × Nat × Nat)
  | secret (n : Nat)
  | members (l : List Address)
  | flag (b : Bool)
  | message (m : Message)
  | failure (e : Err)
  deriving Repr, DecidableEq

/-- Package a read outcome, keeping the revert reason on failure. -/
def liftResult {α : Type} (f : α → ReadResult) : Except Err α → ReadResult
  | .ok a => f a
  | .error e => .failure e

/-- Execute a read call.  Solidity `view` functions cannot write storage
(the compiler enforces this), so a call to one yields its result together
with the unchanged state. -/
def viewCall (s : State) : ReadOp → State × ReadResult
  | .groupCount => (s, .count (getGroupCount s))
  | .group gid => (s, liftResult .group (getGroup s gid))
  | .groupSecret gid => (s, liftResult .secret (getGroupSecret s gid))
  | .members gid => (s, liftResult .members (listMembers s gid))
  | .memberQuery gid a => (s, liftResult .flag (isMember s gid a))
  | .msgCount gid => (s, liftResult .count (getMessageCount s gid))
  | .msgAt gid idx => (s, liftResult .message (getMessage s gid idx))

/-- A small concrete scenario used by the witnesses: identity 7 creates the
group "Alpha" (it gets group id 0) at time 100 with FHE randomness
999999. -/
def demoState : State := createdState initState 7 100 999999 "Alpha"

/-- The demo scenario after identity 9 joins group 0. -/
def demoState2 : State := joinedState demoState 9 0

/-- The demo scenario after member 9 posts the (already enciphered)
message "abcd" to group 0 at time 200. -/
def demoState3 : State := postedState demoState2 9 200 0 "abcd"

/-- The transaction sequence of the demo scenario (`demoState3`), used by
the witnesses: create "Alpha", identity 9 joins, 9 posts "abcd". -/
def demoTxs : List Tx :=
  [.create 7 100 999999 "Alpha", .join 9 0, .post 9 200 0 "abcd"]

/-- The structural invariant of the contract storage: the `groupMembers`
mapping, the `memberLists` enumeration, the per-group message store, the
group counters and the FHE access-control lists stay synchronized.  It
holds in the initial state and is preserved by every transaction. -/
structure Inv (s : State) : Prop where
  listLen : ∀ gid g, s.groups[gid]? = some g →
    (s.memberLists gid).length = g.memberCount
  msgLen : ∀ gid g, s.groups[gid]? = some g →
    (s.groupMessages gid).length = g.messageCount
  nodup : ∀ gid, (s.memberLists gid).Nodup
  headCreator : ∀ gid g, s.groups[gid]? = some g →
    (s.memberLists gid).head? = some g.creator
  memIff : ∀ gid a, a ∈ s.memberLists gid ↔ s.groupMembers gid a = true
  memAcl : ∀ gid a, s.groupMembers gid a = true → s.secretAcl gid a = true
  aclThis : ∀ gid, gid < s.groups.length → s.secretAclThis gid = true
  unbornMembers : ∀ gid, s.groups.length ≤ gid →
    s.memberLists gid = [] ∧ ∀ a, s.groupMembers gid a = false
  unbornMessages : ∀ gid, s.groups.length ≤ gid → s.groupMessages gid = []

/-! ### Round-trip lemmas for the cipher -/

set_option maxRecDepth 10000 in
theorem parse_toHexPadded (b : Fin 256) :
    parseHexChunk (toHexPadded b.val) = b.val ∧ (toHexPadded b.val).length = 2 := by
  revert b; decide

theorem hexChunks_flatten (ls : List (List Char)) (h : ∀ l ∈ ls, l.length = 2) :
    hexChunks ls.flatten = ls := by
  induction ls with
  | nil => rfl
  | cons x xs ih =>
    have hx := h x (List.mem_cons_self _ _)
    match x, hx with
    | [c₁, c₂], _ =>
      show hexChunks (c₁ :: c₂ :: xs.flatten) = [c₁, c₂] :: xs
      rw [hexChunks, ih fun l hl => h l (List.mem_cons_of_mem _ hl)]

theorem xorCycle_involutive (bytesKey : List Nat) (i : Nat) (bs : List Nat) :
    xorCycle bytesKey i (xorCycle bytesKey i bs) = bs := by
  induction bs generalizing i with
  | nil => rfl
  | cons b bs ih =>
    simp only [xorCycle, Nat.xor_assoc, Nat.xor_self, Nat.xor_zero, List.cons.injEq, true_and]
    exact ih (i + 1)

theorem keyBytes_lt (key : Nat) : ∀ x ∈ keyBytes key, x < 256 := by
  have h32 : key % 2 ^ 32 < 2 ^ 32 := Nat.mod_lt _ (by norm_num)
  simp only [keyBytes, List.mem_cons, List.not_mem_nil, or_false]
  rintro x (rfl | rfl | rfl | rfl)
  · exact Nat.div_lt_of_lt_mul (by omega)
  all_goals exact Nat.mod_lt _ (by norm_num)

theorem xorCycle_lt (bytesKey : List Nat) (hk : ∀ x ∈ bytesKey, x < 256) (i : Nat)
    (bs : List Nat) (hbs : ∀ b ∈ bs, b < 256) : ∀ x ∈ xorCycle bytesKey i bs, x < 256 := by
  induction bs generalizing i with
  | nil => simp [xorCycle]
  | cons b bs ih =>
    simp only [xorCycle, List.mem_cons]
    rintro x (rfl | hx)
    · have hb : b < 2 ^ 8 := hbs b (List.mem_cons_self _ _)
      have hkd : bytesKey.getD (i % bytesKey.length) 0 < 2 ^ 8 := by
        rcases Nat.lt_or_ge (i % bytesKey.length) bytesKey.length with h | h
        · rw [List.getD_eq_getElem _ _ h]
          exact hk _ (List.getElem_mem h)
        · rw [List.getD_eq_default _ _ h]; norm_num
      exact Nat.xor_lt_two_pow hb hkd
    · exact ih (i + 1) (fun b hb => hbs b (List.mem_cons_of_mem _ hb)) x hx

theorem map_parse_toHexPadded (l : List Nat) (hl : ∀ x ∈ l, x < 256) :
    (l.map toHexPadded).map parseHexChunk = l := by
  induction l with
  | nil => rfl
  | cons x xs ih =>
    simp only [List.map_cons, List.cons.injEq]
    exact ⟨(parse_toHexPadded ⟨x, hl x (List.mem_cons_self _ _)⟩).1,
      ih fun y hy => hl y (List.mem_cons_of_mem _ hy)⟩

/-- C1: for every message `m` (as its UTF-8 byte sequence) and every secret
`k < 1_000_000`, `decodeMessage (encodeMessage m k) k = m`: the XOR stream
cipher with the 4-byte zero-padded big-endian key round-trips exactly. -/
theorem C1_cipher_roundtrip (m : List Nat) (k : Nat)
    (hm : ∀ b ∈ m, b < 256) (hk : k < 1000000) :
    decodeMessage (encodeMessage m k) k = m := by
  have hcs : ∀ x ∈ xorCycle (keyBytes k) 0 m, x < 256 :=
    xorCycle_lt _ (keyBytes_lt k) 0 m hm
  have hlen : ∀ l ∈ (xorCycle (keyBytes k) 0 m).map toHexPadded, l.length = 2 := by
    intro l hl
    obtain ⟨x, hx, rfl⟩ := List.mem_map.mp hl
    exact (parse_toHexPadded ⟨x, hcs x hx⟩).2
  by_cases hemp : encodeMessage m k = ""
  · have hflat : ((xorCycle (keyBytes k) 0 m).map toHexPadded).flatten = [] := by
      have h := congrArg String.data hemp
      simpa [encodeMessage] using h
    cases hxc : xorCycle (keyBytes k) 0 m with
    | nil =>
      have hm0 : m = [] := by
        have h := congrArg (xorCycle (keyBytes k) 0) hxc
        rwa [xorCycle_involutive] at h
      subst hm0
      rfl
    | cons c cs =>
      exfalso
      rw [hxc] at hflat hcs
      have h2 := (parse_toHexPadded ⟨c, hcs c (List.mem_cons_self _ _)⟩).2
      rw [List.map_cons, List.flatten_cons] at hflat
      rcases List.append_eq_nil.mp hflat with ⟨h1, -⟩
      rw [h1] at h2
      simp at h2
  · simp only [decodeMessage, if_neg hemp]
    have hdata : (encodeMessage m k).data
        = ((xorCycle (keyBytes k) 0 m).map toHexPadded).flatten := rfl
    rw [hdata, hexChunks_flatten _ hlen,
      map_parse_toHexPadded _ hcs, xorCycle_involutive]

/-- Witness for C1 at the concrete message "hello" and key 123456. -/
theorem C1_cipher_roundtrip_witness :
    decodeMessage (encodeMessage [104, 101, 108, 108, 111] 123456) 123456
      = [104, 101, 108, 108, 111] :=
  C1_cipher_roundtrip [104, 101, 108, 108, 111] 123456 (by decide) (by decide)


/-! ### Sequential group-id allocation (C2) -/

theorem runCreates_ids (s : State) (reqs : List (Address × Nat × Nat × String)) :
    getGroupCount (runCreates s reqs).1
      = getGroupCount s + ((runCreates s reqs).2.reduceOption).length ∧
    (runCreates s reqs).2.reduceOption
      = List.range' (getGroupCount s) ((runCreates s reqs).2.reduceOption).length := by
  induction reqs generalizing s with
  | nil => simp [runCreates]
  | cons req rest ih =>
    obtain ⟨sender, t, r, name⟩ := req
    by_cases hname : name = ""
    · simpa [runCreates, createGroup, hname] using ih s
    · simp only [runCreates, createGroup, if_neg hname]
      obtain ⟨ih1, ih2⟩ := ih (createdState s sender t r name)
      have hlen : getGroupCount (createdState s sender t r name) = getGroupCount s + 1 := by
        simp [createdState, getGroupCount]
      rw [hlen] at ih1 ih2
      simp only [List.reduceOption_cons_of_some, List.length_cons]
      refine ⟨by omega, ?_⟩
      rw [List.range'_succ, ih2]
      simp [getGroupCount, List.length_range']


/-- C2: for every sequence of `createGroup` calls starting from the initial
state, `getGroupCount` equals the number of successful calls, and the
successful calls are assigned the group ids `0, 1, 2, …` in order — i.e.
each successful call gets a group id equal to the group count immediately
before it (0-based, sequential, no gaps, no reuse). -/
theorem C2_sequential_group_ids (reqs : List (Address × Nat × Nat × String)) :
    getGroupCount (runCreates initState reqs).1
      = ((runCreates initState reqs).2.reduceOption).length ∧
    (runCreates initState reqs).2.reduceOption
      = List.range ((runCreates initState reqs).2.reduceOption).length := by
  obtain ⟨h1, h2⟩ := runCreates_ids initState reqs
  constructor
  · simpa [getGroupCount, initState] using h1
  · rw [h2]
    simp [getGroupCount, initState, List.range_eq_range', List.length_range']

/-! ### How `step` resolves each transaction -/

theorem step_create (s : State) (sender : Address) (t r : Nat) (name : String) :
    step s (.create sender t r name)
      = if name = "" then s else createdState s sender t r name := by
  by_cases h : name = "" <;> simp [step, createGroup, h, commit, Except.map]

theorem step_join (s : State) (sender : Address) (gid : Nat) :
    step s (.join sender gid)
      = if gid < s.groups.length ∧ s.groupMembers gid sender = false
        then joinedState s sender gid else s := by
  by_cases h1 : gid < s.groups.length
  · by_cases h2 : s.groupMembers gid sender <;>
      simp [step, joinGroup, h1, h2, commit]
  · simp [step, joinGroup, h1, commit]

theorem step_post (s : State) (sender : Address) (t gid : Nat) (c : String) :
    step s (.post sender t gid c)
      = if gid < s.groups.length ∧ s.groupMembers gid sender = true ∧ c ≠ ""
        then postedState s sender t gid c else s := by
  by_cases h1 : gid < s.groups.length
  · by_cases h2 : s.groupMembers gid sender
    · by_cases h3 : c = "" <;>
        simp [step, postMessage, h1, h2, h3, commit]
    · simp [step, postMessage, h1, h2, commit]
  · simp [step, postMessage, h1, commit]

theorem getElem?_some_facts {α : Type} [Inhabited α] {l : List α} {i : Nat} {g : α}
    (h : l[i]? = some g) : i < l.length ∧ l[i]! = g := by
  obtain ⟨hlt, hg⟩ := List.getElem?_eq_some.mp h
  exact ⟨hlt, by rw [getElem!_pos l i hlt, hg]⟩

/-! ### Per-step preservation lemmas -/

theorem step_length_mono (s : State) (tx : Tx) :
    s.groups.length ≤ (step s tx).groups.length := by
  cases tx with
  | create sender t r name =>
    rw [step_create]; split
    · exact Nat.le_refl _
    · simp [createdState]
  | join sender gid =>
    rw [step_join]; split
    · simp [joinedState]
    · exact Nat.le_refl _
  | post sender t gid c =>
    rw [step_post]; split
    · simp [postedState]
    · exact Nat.le_refl _

theorem step_members_mono (s : State) (tx : Tx) (i : Nat) (a : Address)
    (h : s.groupMembers i a = true) : (step s tx).groupMembers i a = true := by
  cases tx with
  | create sender t r name =>
    rw [step_create]; split
    · exact h
    · by_cases hc : i = s.groups.length ∧ a = sender <;> simp [createdState, hc, h]
  | join sender gid =>
    rw [step_join]; split
    · by_cases hc : i = gid ∧ a = sender <;> simp [joinedState, hc, h]
    · exact h
  | post sender t gid c =>
    rw [step_post]; split
    · simpa [postedState] using h
    · exact h

theorem step_messages_extend (s : State) (tx : Tx) (i j : Nat)
    (h : j < (s.groupMessages i).length) :
    ((step s tx).groupMessages i)[j]? = (s.groupMessages i)[j]? := by
  cases tx with
  | create sender t r name =>
    rw [step_create]; split
    · rfl
    · simp [createdState]
  | join sender gid =>
    rw [step_join]; split
    · simp [joinedState]
    · rfl
  | post sender t gid c =>
    rw [step_post]; split
    · by_cases hc : i = gid
      · subst hc
        simp [postedState, List.getElem?_append_left h]
      · simp [postedState, hc]
    · rfl

theorem step_meta_mono (s : State) (tx : Tx) (gid : Nat) (g : GroupMetadata)
    (h : s.groups[gid]? = some g) :
    ∃ g', (step s tx).groups[gid]? = some g' ∧
      g'.name = g.name ∧ g'.creator = g.creator ∧ g'.createdAt = g.createdAt ∧
      g'.secret = g.secret ∧ g.memberCount ≤ g'.memberCount ∧
      g.messageCount ≤ g'.messageCount := by
  obtain ⟨hlt, hg⟩ := getElem?_some_facts h
  cases tx with
  | create sender t r name =>
    rw [step_create]; split
    · exact ⟨g, h, rfl, rfl, rfl, rfl, Nat.le_refl _, Nat.le_refl _⟩
    · refine ⟨g, ?_, rfl, rfl, rfl, rfl, Nat.le_refl _, Nat.le_refl _⟩
      simp only [createdState]
      rw [List.getElem?_append_left hlt]
      exact h
  | join sender gid' =>
    rw [step_join]; split
    · by_cases hgg : gid = gid'
      · subst hgg
        refine ⟨{ g with memberCount := g.memberCount + 1 }, ?_, rfl, rfl, rfl, rfl,
          Nat.le_succ _, Nat.le_refl _⟩
        simp [joinedState, hg, List.getElem?_set, hlt]
      · refine ⟨g, ?_, rfl, rfl, rfl, rfl, Nat.le_refl _, Nat.le_refl _⟩
        simp only [joinedState]
        rw [List.getElem?_set_ne (fun he => hgg he.symm)]
        exact h
    · exact ⟨g, h, rfl, rfl, rfl, rfl, Nat.le_refl _, Nat.le_refl _⟩
  | post sender t gid' c =>
    rw [step_post]; split
    · by_cases hgg : gid = gid'
      · subst hgg
        refine ⟨{ g with messageCount := g.messageCount + 1 }, ?_, rfl, rfl, rfl, rfl,
          Nat.le_refl _, Nat.le_succ _⟩
        simp [postedState, hg, List.getElem?_set, hlt]
      · refine ⟨g, ?_, rfl, rfl, rfl, rfl, Nat.le_refl _, Nat.le_refl _⟩
        simp only [postedState]
        rw [List.getElem?_set_ne (fun he => hgg he.symm)]
        exact h
    · exact ⟨g, h, rfl, rfl, rfl, rfl, Nat.le_refl _, Nat.le_refl _⟩

theorem execTrace_cons (s : State) (tx : Tx) (txs : List Tx) :
    execTrace s (tx :: txs) = execTrace (step s tx) txs := rfl

theorem execTrace_meta_stable (s : State) (txs : List Tx) (gid : Nat) (g : GroupMetadata)
    (h : s.groups[gid]? = some g) :
    ∃ g', (execTrace s txs).groups[gid]? = some g' ∧
      g'.name = g.name ∧ g'.creator = g.creator ∧ g'.createdAt = g.createdAt ∧
      g'.secret = g.secret ∧ g.memberCount ≤ g'.memberCount ∧
      g.messageCount ≤ g'.messageCount := by
  induction txs generalizing s g with
  | nil => exact ⟨g, h, rfl, rfl, rfl, rfl, Nat.le_refl _, Nat.le_refl _⟩
  | cons tx txs ih =>
    obtain ⟨g₁, h₁, hn₁, hc₁, ht₁, hs₁, hm₁, hg₁⟩ := step_meta_mono s tx gid g h
    obtain ⟨g₂, h₂, hn₂, hc₂, ht₂, hs₂, hm₂, hg₂⟩ := ih (step s tx) g₁ h₁
    exact ⟨g₂, h₂, hn₂.trans hn₁, hc₂.trans hc₁, ht₂.trans ht₁, hs₂.trans hs₁,
      hm₁.trans hm₂, hg₁.trans hg₂⟩

/-- C3: immediately after a successful `createGroup(name)` by `sender`, the
new group has the caller as a member, `memberCount = 1`, `messageCount = 0`,
`creator = sender`, and the minted secret (`FHE.rem(rand, 1_000_000)`) lies
in `[0, 1_000_000)`; the secret is fixed at creation and no later
transaction sequence ever changes it. -/
theorem C3_createGroup_postcondition (s : State) (sender : Address) (t r : Nat)
    (name : String) (s' : State) (gid secret : Nat)
    (h : createGroup s sender t r name = .ok (s', gid, secret)) :
    isMember s' gid sender = .ok true ∧
    s'.groups[gid]? = some ⟨name, sender, secret, t, 1, 0⟩ ∧
    secret < 1000000 ∧
    ∀ txs : List Tx,
      ((execTrace s' txs).groups[gid]?).map GroupMetadata.secret = some secret := by
  by_cases hname : name = ""
  · simp [createGroup, hname] at h
  · simp only [createGroup, if_neg hname, Except.ok.injEq, Prod.mk.injEq] at h
    obtain ⟨hs', hgid, hsec⟩ := h
    subst hs' hgid hsec
    have hsome : (createdState s sender t r name).groups[s.groups.length]?
        = some ⟨name, sender, r % 2 ^ 32 % 1000000, t, 1, 0⟩ := by
      simp [createdState, List.getElem?_concat_length]
    refine ⟨?_, hsome, Nat.mod_lt _ (by norm_num), ?_⟩
    · simp [isMember, createdState]
    · intro txs
      obtain ⟨g', hg', -, -, -, hsecr, -, -⟩ :=
        execTrace_meta_stable _ txs _ _ hsome
      rw [hg', Option.map_some', hsecr]

/-- Witness for C3: creator 7 creates "Alpha" on a fresh contract with FHE
randomness 999999; the postcondition holds, and the secret survives a later
`joinGroup` by identity 9. -/
theorem C3_createGroup_postcondition_witness :
    isMember (createdState initState 7 100 999999 "Alpha") 0 7 = .ok true ∧
    (createdState initState 7 100 999999 "Alpha").groups[0]?
      = some ⟨"Alpha", 7, 999999, 100, 1, 0⟩ ∧
    (999999 : Nat) < 1000000 ∧
    ((execTrace (createdState initState 7 100 999999 "Alpha")
        [Tx.join 9 0]).groups[0]?).map GroupMetadata.secret = some 999999 := by
  obtain ⟨h1, h2, h3, h4⟩ :=
    C3_createGroup_postcondition initState 7 100 999999 "Alpha"
      (createdState initState 7 100 999999 "Alpha") 0 999999 rfl
  exact ⟨h1, h2, h3, h4 [Tx.join 9 0]⟩

/-- C6: `joinGroup` fails with `NotFound` ("Invalid group") when the id is
out of range and with `AlreadyMember` ("Already joined") when the caller is
a member; every failure leaves the state entirely unchanged; on success the
caller becomes a member and `memberCount` is incremented by exactly 1 (all
other group fields unchanged). -/
theorem C6_joinGroup_behavior (s : State) (sender : Address) (gid : Nat) :
    (s.groups.length ≤ gid → joinGroup s sender gid = .error .invalidGroup) ∧
    (gid < s.groups.length → s.groupMembers gid sender = true →
      joinGroup s sender gid = .error .alreadyJoined) ∧
    (∀ e, joinGroup s sender gid = .error e → step s (.join sender gid) = s) ∧
    (gid < s.groups.length → s.groupMembers gid sender = false →
      joinGroup s sender gid = .ok (joinedState s sender gid) ∧
      (joinedState s sender gid).groupMembers gid sender = true ∧
      ∃ g, s.groups[gid]? = some g ∧
        (joinedState s sender gid).groups[gid]?
          = some { g with memberCount := g.memberCount + 1 }) := by
  refine ⟨?_, ?_, ?_, ?_⟩
  · intro hge
    simp [joinGroup, Nat.not_lt.mpr hge]
  · intro hlt hmem
    simp [joinGroup, hlt, hmem]
  · intro e he
    simp [step, commit, he]
  · intro hlt hmem
    refine ⟨by simp [joinGroup, hlt, hmem], by simp [joinedState], s.groups[gid]!, ?_, ?_⟩
    · rw [List.getElem?_eq_getElem hlt, getElem!_pos s.groups gid hlt]
    · simp [joinedState, List.getElem?_set, hlt]

/-- Witness for C6 in the demo scenario: joining the non-existent group 1
and re-joining as the creator 7 both fail and leave the state unchanged;
the non-member 9 joins group 0 successfully with `memberCount` going from
1 to 2. -/
theorem C6_joinGroup_behavior_witness :
    joinGroup demoState 9 1 = .error .invalidGroup ∧
    joinGroup demoState 7 0 = .error .alreadyJoined ∧
    step demoState (.join 7 0) = demoState ∧
    (joinGroup demoState 9 0 = .ok (joinedState demoState 9 0) ∧
      (joinedState demoState 9 0).groupMembers 0 9 = true ∧
      ∃ g, demoState.groups[0]? = some g ∧
        (joinedState demoState 9 0).groups[0]?
          = some { g with memberCount := g.memberCount + 1 }) :=
  ⟨(C6_joinGroup_behavior demoState 9 1).1 (by decide),
   (C6_joinGroup_behavior demoState 7 0).2.1 (by decide) (by decide),
   (C6_joinGroup_behavior demoState 7 0).2.2.1 .alreadyJoined
     ((C6_joinGroup_behavior demoState 7 0).2.1 (by decide) (by decide)),
   (C6_joinGroup_behavior demoState 9 0).2.2.2 (by decide) (by decide)⟩

/-- C5: against an existing group, `postMessage` by a non-member fails with
`Forbidden` ("Join first") and leaves the state (hence `messageCount`)
unchanged; by a member with a non-empty ciphertext it succeeds, appends
exactly the message `{sender, cipherText, timestamp}` — so the stored
sender is the caller and the stored ciphertext the argument — and
increments `messageCount` by exactly 1. -/
theorem C5_postMessage_behavior (s : State) (sender : Address) (t gid : Nat)
    (c : String) (hgid : gid < s.groups.length) :
    (s.groupMembers gid sender = false →
      postMessage s sender t gid c = .error .joinFirst ∧
      step s (.post sender t gid c) = s) ∧
    (s.groupMembers gid sender = true → c ≠ "" →
      postMessage s sender t gid c = .ok (postedState s sender t gid c) ∧
      (postedState s sender t gid c).groupMessages gid
        = s.groupMessages gid ++ [⟨sender, c, t⟩] ∧
      ∃ g, s.groups[gid]? = some g ∧
        (postedState s sender t gid c).groups[gid]?
          = some { g with messageCount := g.messageCount + 1 }) := by
  constructor
  · intro hmem
    have hp : postMessage s sender t gid c = .error .joinFirst := by
      simp [postMessage, hgid, hmem]
    exact ⟨hp, by simp [step, commit, hp]⟩
  · intro hmem hc
    refine ⟨by simp [postMessage, hgid, hmem, hc], by simp [postedState],
      s.groups[gid]!, ?_, ?_⟩
    · rw [List.getElem?_eq_getElem hgid, getElem!_pos s.groups gid hgid]
    · simp [postedState, List.getElem?_set, hgid]

/-- Witness for C5 in the demo scenario: the non-member 11 cannot post to
group 0 and the state is unchanged; the member 9 posts "beef"
successfully. -/
theorem C5_postMessage_behavior_witness :
    (postMessage demoState2 11 300 0 "beef" = .error .joinFirst ∧
      step demoState2 (.post 11 300 0 "beef") = demoState2) ∧
    (postMessage demoState2 9 300 0 "beef" = .ok (postedState demoState2 9 300 0 "beef") ∧
      (postedState demoState2 9 300 0 "beef").groupMessages 0
        = demoState2.groupMessages 0 ++ [⟨9, "beef", 300⟩] ∧
      ∃ g, demoState2.groups[0]? = some g ∧
        (postedState demoState2 9 300 0 "beef").groups[0]?
          = some { g with messageCount := g.messageCount + 1 }) :=
  ⟨(C5_postMessage_behavior demoState2 11 300 0 "beef" (by decide)).1 (by decide),
   (C5_postMessage_behavior demoState2 9 300 0 "beef" (by decide)).2
     (by decide) (by decide)⟩

/-- C9: error-check precedence in `postMessage` — an unknown group id
fails with `NotFound` ("Invalid group") before any other check; for an
existing group, membership is checked before body non-emptiness, so a
non-member posting any body (empty included) gets `Forbidden` ("Join
first"); consequently `InvalidArgument` ("Message required") is observable
only for a member of an existing group with an empty body. -/
theorem C9_postMessage_precedence (s : State) (sender : Address) (t gid : Nat)
    (c : String) :
    (s.groups.length ≤ gid → postMessage s sender t gid c = .error .invalidGroup) ∧
    (gid < s.groups.length → s.groupMembers gid sender = false →
      postMessage s sender t gid c = .error .joinFirst) ∧
    (postMessage s sender t gid c = .error .messageRequired →
      gid < s.groups.length ∧ s.groupMembers gid sender = true ∧ c = "") := by
  refine ⟨?_, ?_, ?_⟩
  · intro hge
    simp [postMessage, Nat.not_lt.mpr hge]
  · intro hlt hmem
    simp [postMessage, hlt, hmem]
  · intro he
    by_cases h1 : gid < s.groups.length
    · by_cases h2 : s.groupMembers gid sender
      · by_cases h3 : c = ""
        · exact ⟨h1, h2, h3⟩
        · simp [postMessage, h1, h2, h3] at he
      · simp [postMessage, h1, h2] at he
    · simp [postMessage, h1] at he

/-- Witness for C9 in the demo scenario: posting the empty body to the
unknown group 5 gives `NotFound`; the non-member 11 posting the empty body
to group 0 gets `Forbidden`, not `InvalidArgument`; and an actual
`messageRequired` failure (member 9, empty body) implies membership. -/
theorem C9_postMessage_precedence_witness :
    postMessage demoState2 11 300 5 "" = .error .invalidGroup ∧
    postMessage demoState2 11 300 0 "" = .error .joinFirst ∧
    (0 < demoState2.groups.length ∧ demoState2.groupMembers 0 9 = true ∧ "" = "") :=
  ⟨(C9_postMessage_precedence demoState2 11 300 5 "").1 (by decide),
   (C9_postMessage_precedence demoState2 11 300 0 "").2.1 (by decide) (by decide),
   (C9_postMessage_precedence demoState2 9 300 0 "").2.2 (by rfl)⟩

/-- C7: across any single transaction (`createGroup`, `joinGroup`,
`postMessage`, each reverting or succeeding), an existing group keeps its
`name`, `creator`, `createdAt` and `secret` unchanged, its `memberCount`
and `messageCount` never decrease, membership once `true` stays `true`,
and already-stored messages are unchanged (messages are only appended).
Since every reachable state arises from such steps, this holds of every
operation on every reachable state. -/
theorem C7_immutable_and_monotone (s : State) (tx : Tx) (gid : Nat)
    (g : GroupMetadata) (h : s.groups[gid]? = some g) :
    (∃ g', (step s tx).groups[gid]? = some g' ∧
      g'.name = g.name ∧ g'.creator = g.creator ∧ g'.createdAt = g.createdAt ∧
      g'.secret = g.secret ∧ g.memberCount ≤ g'.memberCount ∧
      g.messageCount ≤ g'.messageCount) ∧
    (∀ a, s.groupMembers gid a = true → (step s tx).groupMembers gid a = true) ∧
    (∀ j, j < (s.groupMessages gid).length →
      ((step s tx).groupMessages gid)[j]? = (s.groupMessages gid)[j]?) :=
  ⟨step_meta_mono s tx gid g h,
   fun a ha => step_members_mono s tx gid a ha,
   fun j hj => step_messages_extend s tx gid j hj⟩

/-- Witness for C7: in the demo scenario (creator 7, member 9, one stored
message), a further post by 7 keeps the identity fields, keeps 9 a member,
and leaves the stored message at index 0 in place. -/
theorem C7_immutable_and_monotone_witness :
    (∃ g', (step demoState3 (Tx.post 7 300 0 "ff")).groups[0]? = some g' ∧
      g'.name = "Alpha" ∧ g'.creator = 7 ∧ g'.createdAt = 100 ∧
      g'.secret = 999999 ∧ 2 ≤ g'.memberCount ∧ 1 ≤ g'.messageCount) ∧
    (step demoState3 (Tx.post 7 300 0 "ff")).groupMembers 0 9 = true ∧
    ((step demoState3 (Tx.post 7 300 0 "ff")).groupMessages 0)[0]?
      = (demoState3.groupMessages 0)[0]? := by
  obtain ⟨h1, h2, h3⟩ := C7_immutable_and_monotone demoState3 (Tx.post 7 300 0 "ff")
    0 ⟨"Alpha", 7, 999999, 100, 2, 1⟩ (by decide)
  exact ⟨h1, h2 9 (by decide), h3 0 (by decide)⟩

/-! ### The storage invariant holds in every reachable state -/

theorem getElem?_concat_cases {α : Type} (l : List α) (x : α) (i : Nat) (g : α)
    (h : (l ++ [x])[i]? = some g) :
    (i < l.length ∧ l[i]? = some g) ∨ (i = l.length ∧ g = x) := by
  rcases Nat.lt_trichotomy i l.length with hlt | heq | hgt
  · exact Or.inl ⟨hlt, by rwa [List.getElem?_append_left hlt] at h⟩
  · subst heq
    rw [List.getElem?_concat_length] at h
    exact Or.inr ⟨rfl, (Option.some.inj h).symm⟩
  · exfalso
    rw [List.getElem?_eq_none (by simp; omega)] at h
    exact Option.noConfusion h

theorem getElem?_set_cases {α : Type} (l : List α) (x : α) (i j : Nat) (g : α)
    (h : (l.set i x)[j]? = some g) :
    (j = i ∧ j < l.length ∧ g = x) ∨ (j ≠ i ∧ l[j]? = some g) := by
  by_cases he : j = i
  · subst he
    rw [List.getElem?_set, if_pos rfl] at h
    split at h
    · exact Or.inl ⟨rfl, by assumption, (Option.some.inj h).symm⟩
    · exact Option.noConfusion h
  · exact Or.inr ⟨he, by rwa [List.getElem?_set_ne (fun hh => he hh.symm)] at h⟩

theorem inv_init : Inv initState := by
  refine ⟨?_, ?_, ?_, ?_, ?_, ?_, ?_, ?_, ?_⟩ <;> simp [initState]

theorem inv_step (s : State) (tx : Tx) (hs : Inv s) : Inv (step s tx) := by
  cases tx with
  | create sender t r name =>
    rw [step_create]
    by_cases hname : name = ""
    · rw [if_pos hname]; exact hs
    rw [if_neg hname]
    have hunbornL := (hs.unbornMembers s.groups.length (Nat.le_refl _)).1
    have hunbornM := (hs.unbornMembers s.groups.length (Nat.le_refl _)).2
    have hunbornMsg := hs.unbornMessages s.groups.length (Nat.le_refl _)
    refine ⟨?_, ?_, ?_, ?_, ?_, ?_, ?_, ?_, ?_⟩
    all_goals simp only [createdState]
    · intro gid g hgid
      rcases getElem?_concat_cases _ _ _ _ hgid with ⟨hlt, hold⟩ | ⟨heq, hg⟩
      · rw [if_neg (Nat.ne_of_lt hlt)]
        exact hs.listLen gid g hold
      · subst heq; subst hg
        rw [if_pos rfl, hunbornL]
        rfl
    · intro gid g hgid
      rcases getElem?_concat_cases _ _ _ _ hgid with ⟨hlt, hold⟩ | ⟨heq, hg⟩
      · exact hs.msgLen gid g hold
      · subst heq; subst hg
        rw [hunbornMsg]
        rfl
    · intro gid
      by_cases he : gid = s.groups.length
      · subst he
        rw [if_pos rfl, hunbornL]
        simp
      · rw [if_neg he]
        exact hs.nodup gid
    · intro gid g hgid
      rcases getElem?_concat_cases _ _ _ _ hgid with ⟨hlt, hold⟩ | ⟨heq, hg⟩
      · rw [if_neg (Nat.ne_of_lt hlt)]
        exact hs.headCreator gid g hold
      · subst heq; subst hg
        rw [if_pos rfl, hunbornL]
        rfl
    · intro gid a
      by_cases he : gid = s.groups.length
      · subst he
        rw [if_pos rfl, hunbornL]
        by_cases ha : a = sender <;> simp [ha, hunbornM a]
      · rw [if_neg he]
        simp [he, hs.memIff gid a]
    · intro gid a hmap
      by_cases hcon : gid = s.groups.length ∧ a = sender
      · rw [if_pos hcon]
      · rw [if_neg hcon] at hmap ⊢
        exact hs.memAcl gid a hmap
    · intro gid hlt
      by_cases he : gid = s.groups.length
      · rw [if_pos he]
      · rw [if_neg he]
        apply hs.aclThis
        simp only [List.length_append, List.length_singleton] at hlt
        omega
    · intro gid hge
      simp only [List.length_append, List.length_singleton] at hge
      have hne : gid ≠ s.groups.length := by omega
      rw [if_neg hne]
      refine ⟨(hs.unbornMembers gid (by omega)).1, fun a => ?_⟩
      rw [if_neg (fun hcon => hne hcon.1)]
      exact (hs.unbornMembers gid (by omega)).2 a
    · intro gid hge
      simp only [List.length_append, List.length_singleton] at hge
      exact hs.unbornMessages gid (by omega)
  | join sender gid₀ =>
    rw [step_join]
    by_cases hcond : gid₀ < s.groups.length ∧ s.groupMembers gid₀ sender = false
    swap
    · rw [if_neg hcond]; exact hs
    rw [if_pos hcond]
    obtain ⟨hlt, hmem⟩ := hcond
    have hg₀? : s.groups[gid₀]? = some s.groups[gid₀]! := by
      rw [List.getElem?_eq_getElem hlt, getElem!_pos s.groups gid₀ hlt]
    refine ⟨?_, ?_, ?_, ?_, ?_, ?_, ?_, ?_, ?_⟩
    all_goals simp only [joinedState]
    · intro gid g hgid
      rcases getElem?_set_cases _ _ _ _ _ hgid with ⟨heq, hlt2, hg⟩ | ⟨hne, hold⟩
      · subst heq; subst hg
        rw [if_pos rfl]
        have hLL := hs.listLen gid s.groups[gid]! hg₀?
        simp [hLL]
      · rw [if_neg hne]
        exact hs.listLen gid g hold
    · intro gid g hgid
      rcases getElem?_set_cases _ _ _ _ _ hgid with ⟨heq, hlt2, hg⟩ | ⟨hne, hold⟩
      · subst heq; subst hg
        simpa using hs.msgLen gid s.groups[gid]! hg₀?
      · exact hs.msgLen gid g hold
    · intro gid
      by_cases he : gid = gid₀
      · subst he
        rw [if_pos rfl]
        have hnotin : sender ∉ s.memberLists gid := by
          intro hin
          have hmap := (hs.memIff gid sender).mp hin
          simp [hmem] at hmap
        simp [List.nodup_append, hs.nodup gid, hnotin]
      · rw [if_neg he]
        exact hs.nodup gid
    · intro gid g hgid
      rcases getElem?_set_cases _ _ _ _ _ hgid with ⟨heq, hlt2, hg⟩ | ⟨hne, hold⟩
      · subst heq; subst hg
        rw [if_pos rfl, List.head?_append, hs.headCreator gid s.groups[gid]! hg₀?]
        rfl
      · rw [if_neg hne]
        exact hs.headCreator gid g hold
    · intro gid a
      by_cases he : gid = gid₀
      · subst he
        rw [if_pos rfl]
        by_cases ha : a = sender
        · subst ha
          simp
        · simp [ha, hs.memIff gid a]
      · rw [if_neg he]
        simp [he, hs.memIff gid a]
    · intro gid a hmap
      by_cases hcon : gid = gid₀ ∧ a = sender
      · rw [if_pos hcon]
      · rw [if_neg hcon] at hmap ⊢
        exact hs.memAcl gid a hmap
    · intro gid hlen
      rw [List.length_set] at hlen
      exact hs.aclThis gid hlen
    · intro gid hge
      rw [List.length_set] at hge
      have hne : gid ≠ gid₀ := by omega
      rw [if_neg hne]
      refine ⟨(hs.unbornMembers gid hge).1, fun a => ?_⟩
      rw [if_neg (fun hcon => hne hcon.1)]
      exact (hs.unbornMembers gid hge).2 a
    · intro gid hge
      rw [List.length_set] at hge
      exact hs.unbornMessages gid hge
  | post sender t gid₀ c =>
    rw [step_post]
    by_cases hcond : gid₀ < s.groups.length ∧ s.groupMembers gid₀ sender = true ∧ c ≠ ""
    swap
    · rw [if_neg hcond]; exact hs
    rw [if_pos hcond]
    obtain ⟨hlt, hmem, hc⟩ := hcond
    have hg₀? : s.groups[gid₀]? = some s.groups[gid₀]! := by
      rw [List.getElem?_eq_getElem hlt, getElem!_pos s.groups gid₀ hlt]
    refine ⟨?_, ?_, ?_, ?_, ?_, ?_, ?_, ?_, ?_⟩
    all_goals simp only [postedState]
    · intro gid g hgid
      rcases getElem?_set_cases _ _ _ _ _ hgid with ⟨heq, hlt2, hg⟩ | ⟨hne, hold⟩
      · subst heq; subst hg
        simpa using hs.listLen gid s.groups[gid]! hg₀?
      · exact hs.listLen gid g hold
    · intro gid g hgid
      rcases getElem?_set_cases _ _ _ _ _ hgid with ⟨heq, hlt2, hg⟩ | ⟨hne, hold⟩
      · subst heq; subst hg
        rw [if_pos rfl]
        have hML := hs.msgLen gid s.groups[gid]! hg₀?
        simp [hML]
      · rw [if_neg hne]
        exact hs.msgLen gid g hold
    · intro gid
      exact hs.nodup gid
    · intro gid g hgid
      rcases getElem?_set_cases _ _ _ _ _ hgid with ⟨heq, hlt2, hg⟩ | ⟨hne, hold⟩
      · subst heq; subst hg
        simpa using hs.headCreator gid s.groups[gid]! hg₀?
      · exact hs.headCreator gid g hold
    · intro gid a
      exact hs.memIff gid a
    · intro gid a hmap
      exact hs.memAcl gid a hmap
    · intro gid hlen
      rw [List.length_set] at hlen
      exact hs.aclThis gid hlen
    · intro gid hge
      rw [List.length_set] at hge
      exact hs.unbornMembers gid hge
    · intro gid hge
      rw [List.length_set] at hge
      have hne : gid ≠ gid₀ := by omega
      rw [if_neg hne]
      exact hs.unbornMessages gid hge

theorem inv_execTrace (s : State) (txs : List Tx) (hs : Inv s) :
    Inv (execTrace s txs) := by
  induction txs generalizing s with
  | nil => exact hs
  | cons tx txs ih => exact ih (step s tx) (inv_step s tx hs)

theorem inv_reachable (txs : List Tx) : Inv (execTrace initState txs) :=
  inv_execTrace initState txs inv_init

/-- C4: in every reachable state, every identity recorded as a member of a
group is on the ACL of that group's secret (`FHE.allow` runs in the same
atomic step as each Membership insertion — creator at `createGroup`, joiner
at `joinGroup`), and the contract's own authority (`FHE.allowThis` at
creation) has standing access for every existing group. -/
theorem C4_acl_synchronized (txs : List Tx) (gid : Nat) (a : Address) :
    ((execTrace initState txs).groupMembers gid a = true →
      (execTrace initState txs).secretAcl gid a = true) ∧
    (gid < (execTrace initState txs).groups.length →
      (execTrace initState txs).secretAclThis gid = true) :=
  ⟨fun h => (inv_reachable txs).memAcl gid a h,
   fun h => (inv_reachable txs).aclThis gid h⟩

/-- Witness for C4 in the demo scenario: the joiner 9 is on group 0's ACL,
and the contract itself has standing access to group 0's secret. -/
theorem C4_acl_synchronized_witness :
    (execTrace initState demoTxs).secretAcl 0 9 = true ∧
    (execTrace initState demoTxs).secretAclThis 0 = true :=
  ⟨(C4_acl_synchronized demoTxs 0 9).1 (by decide),
   (C4_acl_synchronized demoTxs 0 9).2 (by decide)⟩

/-- C10: in every reachable state and for every existing group,
`memberCount` equals the length of the member enumeration list, the list
has no duplicate identities, its first element is the group's creator, and
an identity is on the list iff the membership mapping holds for it. -/
theorem C10_member_list_consistency (txs : List Tx) (gid : Nat) (g : GroupMetadata)
    (h : (execTrace initState txs).groups[gid]? = some g) :
    ((execTrace initState txs).memberLists gid).length = g.memberCount ∧
    ((execTrace initState txs).memberLists gid).Nodup ∧
    ((execTrace initState txs).memberLists gid).head? = some g.creator ∧
    ∀ a, a ∈ (execTrace initState txs).memberLists gid ↔
      (execTrace initState txs).groupMembers gid a = true :=
  ⟨(inv_reachable txs).listLen gid g h, (inv_reachable txs).nodup gid,
   (inv_reachable txs).headCreator gid g h,
   fun a => (inv_reachable txs).memIff gid a⟩

/-- Witness for C10 in the demo scenario: group 0 has `memberCount = 2`,
the duplicate-free member list `[7, 9]` headed by the creator 7, and the
joiner 9 is both listed and mapped. -/
theorem C10_member_list_consistency_witness :
    ((execTrace initState demoTxs).memberLists 0).length = 2 ∧
    ((execTrace initState demoTxs).memberLists 0).Nodup ∧
    ((execTrace initState demoTxs).memberLists 0).head? = some 7 ∧
    (9 ∈ (execTrace initState demoTxs).memberLists 0 ↔
      (execTrace initState demoTxs).groupMembers 0 9 = true) := by
  obtain ⟨h1, h2, h3, h4⟩ := C10_member_list_consistency demoTxs 0
    ⟨"Alpha", 7, 999999, 100, 2, 1⟩ (by decide)
  exact ⟨h1, h2, h3, h4 9⟩

/-- C8: the read entry points never modify state (a `viewCall` returns the
state unchanged); each group-indexed read fails with `NotFound` ("Invalid
group") when the id is not below the group count; and, on a reachable
state, `getMessage` additionally fails with `IndexOutOfRange` ("Invalid
message index") when the index is not below the group's `messageCount` and
otherwise returns the `index`-th appended message. -/
theorem C8_reads_pure_and_errors (txs : List Tx) (gid idx : Nat) (a : Address) :
    (∀ r : ReadOp, (viewCall (execTrace initState txs) r).1
      = execTrace initState txs) ∧
    (getGroupCount (execTrace initState txs) ≤ gid →
      getGroup (execTrace initState txs) gid = .error .invalidGroup ∧
      getGroupSecret (execTrace initState txs) gid = .error .invalidGroup ∧
      listMembers (execTrace initState txs) gid = .error .invalidGroup ∧
      isMember (execTrace initState txs) gid a = .error .invalidGroup ∧
      getMessageCount (execTrace initState txs) gid = .error .invalidGroup ∧
      getMessage (execTrace initState txs) gid idx = .error .invalidGroup) ∧
    (∀ g, (execTrace initState txs).groups[gid]? = some g →
      (g.messageCount ≤ idx →
        getMessage (execTrace initState txs) gid idx
          = .error .invalidMessageIndex) ∧
      (idx < g.messageCount →
        ∃ m, getMessage (execTrace initState txs) gid idx = .ok m ∧
          ((execTrace initState txs).groupMessages gid)[idx]? = some m)) := by
  have hInv := inv_reachable txs
  refine ⟨fun r => by cases r <;> rfl, fun hge => ?_, fun g hg => ?_⟩
  · simp only [getGroupCount] at hge
    have hnlt := Nat.not_lt.mpr hge
    exact ⟨by simp [getGroup, hnlt], by simp [getGroupSecret, hnlt],
      by simp [listMembers, hnlt], by simp [isMember, hnlt],
      by simp [getMessageCount, hnlt], by simp [getMessage, hnlt]⟩
  · obtain ⟨hlt, -⟩ := List.getElem?_eq_some.mp hg
    have hml := hInv.msgLen gid g hg
    constructor
    · intro hge2
      have hnlt : ¬ idx < ((execTrace initState txs).groupMessages gid).length := by
        omega
      simp [getMessage, hlt, hnlt]
    · intro hlt2
      have hidx : idx < ((execTrace initState txs).groupMessages gid).length := by
        omega
      refine ⟨((execTrace initState txs).groupMessages gid)[idx], ?_,
        List.getElem?_eq_getElem hidx⟩
      simp [getMessage, hlt, hidx, getElem!_pos]

/-- Witness for C8 in the demo scenario: a `getGroupCount` view call leaves
the state unchanged, the reads fail with `NotFound` on the unknown group 5,
`getMessage` fails with `IndexOutOfRange` at index 3 of group 0 (which has
one message), and succeeds at index 0 returning the stored message. -/
theorem C8_reads_pure_and_errors_witness :
    (viewCall (execTrace initState demoTxs) ReadOp.groupCount).1
      = execTrace initState demoTxs ∧
    getGroup (execTrace initState demoTxs) 5 = .error .invalidGroup ∧
    getMessage (execTrace initState demoTxs) 0 3 = .error .invalidMessageIndex ∧
    ∃ m, getMessage (execTrace initState demoTxs) 0 0 = .ok m ∧
      ((execTrace initState demoTxs).groupMessages 0)[0]? = some m :=
  ⟨(C8_reads_pure_and_errors demoTxs 5 0 11).1 ReadOp.groupCount,
   ((C8_reads_pure_and_errors demoTxs 5 0 11).2.1 (by decide)).1,
   ((C8_reads_pure_and_errors demoTxs 0 3 11).2.2
     ⟨"Alpha", 7, 999999, 100, 2, 1⟩ (by decide)).1 (by decide),
   ((C8_reads_pure_and_errors demoTxs 0 0 11).2.2
     ⟨"Alpha", 7, 999999, 100, 2, 1⟩ (by decide)).2 (by decide)⟩

end AnonVerse
